import Mathlib

/-!
Verification of the voxel-world persistence and decoding layer of the
`mesetools` repository (crate `light`): the block binary-format decoder
(`src/light/src/world/map.rs`), the session-scoped global id mapping
(`src/light/src/node.rs`), the SQLite backend fetch
(`src/light/src/world/sqlite.rs`) and the world-metadata reader
(`src/light/src/world/meta.rs`).

Shallow embedding conventions:
* Byte sequences (`&[u8]`, `Vec<u8>`) are `List Nat`, each element a byte
  value; machine arithmetic is explicit (`% 65536` where `u16` overflow
  matters).
* Rust `String`s that occur as decoded names are kept as their UTF-8 byte
  lists (validity is checked exactly where the code checks it); the
  metadata reader, which works on text, uses Lean `String`.
* `HashMap` fields are modelled as functions to `Option` (insert = pointwise
  update) or, for the metadata reader, as an association list with
  replace-on-duplicate insert.
* Fallible operations return `Except Error`; a Rust `assert!` failure
  (process abort) is modelled as `Option.none`.
* The zstd decompressor is an external library; `parse_data` takes it as an
  oracle `List Nat → Option (List Nat)` (`none` = decompression failure,
  which the code surfaces as an I/O error).
-/

/-- Byte sequences: each element is intended to be `< 256`. -/
abbrev Bytes := List Nat

/-- Errors of the `rusqlite` driver that the model distinguishes:
`QueryReturnedNoRows` is what `Connection::query_one` returns when the query
yields no row; every other driver failure is collapsed into `Other`. -/
inductive SqliteError where
  | QueryReturnedNoRows : SqliteError
  | Other : SqliteError
deriving DecidableEq, Repr

/-- The `Error` enum of `src/light/src/world/map.rs`. Payloads that the
claims never inspect (`FromUtf8Error`, `std::io::Error`, `postgres::Error`)
are dropped; the `String` of `UnexpectedFormat` and the wrapped
`rusqlite::Error` are kept. -/
inductive Error where
  | BlockNotFound : Error
  | UnsupportedVersion : Nat → Error
  | UnexpectedFormat : String → Error
  | InvalidUtf8 : Error
  | Io : Error
  | Postgres : Error
  | Sqlite : SqliteError → Error
deriving DecidableEq, Repr

/-- `fn read_u8`: read one byte or fail with an I/O error.  Returns the byte
and the remaining input (the cursor advanced by one). -/
def read_u8 (s : Bytes) : Except Error (Nat × Bytes) :=
  match s with
  | [] => .error .Io
  | b :: rest => .ok (b, rest)

/-- `fn read_u16`: read two bytes, compose big-endian
(`u16::from_be_bytes`, i.e. `hi * 256 + lo`). -/
def read_u16 (s : Bytes) : Except Error (Nat × Bytes) :=
  match s with
  | b1 :: b0 :: rest => .ok (b1 * 256 + b0, rest)
  | _ => .error .Io

/-- `fn read_u32`: read four bytes, compose big-endian. -/
def read_u32 (s : Bytes) : Except Error (Nat × Bytes) :=
  match s with
  | b3 :: b2 :: b1 :: b0 :: rest =>
      .ok (((b3 * 256 + b2) * 256 + b1) * 256 + b0, rest)
  | _ => .error .Io

/-- `Read::read_exact` on a cursor: take `n` bytes or fail with an I/O
error. -/
def read_exact (n : Nat) (s : Bytes) : Except Error (Bytes × Bytes) :=
  if n ≤ s.length then .ok (s.take n, s.drop n) else .error .Io

/-- Is `b` a UTF-8 continuation byte (`0x80..=0xBF`)? -/
def isCont (b : Nat) : Bool := 0x80 ≤ b && b ≤ 0xBF

/-- UTF-8 validity exactly as `String::from_utf8` checks it: ASCII,
two-byte sequences starting `0xC2..=0xDF`, three-byte sequences with the
overlong/surrogate exclusions on the second byte, four-byte sequences with
the range exclusions on the second byte. -/
def validUtf8 : Bytes → Bool
  | [] => true
  | b :: rest =>
    if b ≤ 0x7F then validUtf8 rest
    else if 0xC2 ≤ b && b ≤ 0xDF then
      match rest with
      | c1 :: rest' => isCont c1 && validUtf8 rest'
      | [] => false
    else if 0xE0 ≤ b && b ≤ 0xEF then
      match rest with
      | c1 :: c2 :: rest' =>
        (if b = 0xE0 then 0xA0 ≤ c1 && c1 ≤ 0xBF
         else if b = 0xED then 0x80 ≤ c1 && c1 ≤ 0x9F
         else isCont c1) && isCont c2 && validUtf8 rest'
      | _ => false
    else if 0xF0 ≤ b && b ≤ 0xF4 then
      match rest with
      | c1 :: c2 :: c3 :: rest' =>
        (if b = 0xF0 then 0x90 ≤ c1 && c1 ≤ 0xBF
         else if b = 0xF4 then 0x80 ≤ c1 && c1 ≤ 0x8F
         else isCont c1) && isCont c2 && isCont c3 && validUtf8 rest'
      | _ => false
    else false

/-- `fn read_string`: a big-endian 16-bit length, then that many bytes,
which must be valid UTF-8 (`String::from_utf8` failure becomes
`InvalidUtf8`).  The decoded string is kept as its byte list. -/
def read_string (s : Bytes) : Except Error (Bytes × Bytes) :=
  match read_u16 s with
  | .error e => .error e
  | .ok (len, s1) =>
    match read_exact len s1 with
    | .error e => .error e
    | .ok (data, s2) =>
      if validUtf8 data then .ok (data, s2) else .error .InvalidUtf8

/-- `Block::VOLUME = 16 * 16 * 16`. -/
def VOLUME : Nat := 16 * 16 * 16

/-- A single voxel (`struct Node`): 16-bit id, `param1`, `param2`. -/
structure Node where
  id : Nat
  param1 : Nat
  param2 : Nat
deriving DecidableEq, Repr

/-- A decoded block (`struct Block`): the raw 16384 node bytes and the
block-local id→name table (`HashMap<u16, String>` as a function, names as
UTF-8 byte lists). -/
structure Block where
  node_data : Bytes
  mappings : Nat → Option Bytes

/-- The mapping-table loop of `Block::parse_data`:
`for _ in 0..mappings_count { let id = read_u16?; let name = read_string?;
mappings.insert(id, name); }`.  Later entries with a repeated id overwrite
earlier ones (`HashMap::insert`). -/
def read_mappings : Nat → Bytes → (Nat → Option Bytes) →
    Except Error ((Nat → Option Bytes) × Bytes)
  | 0, s, m => .ok (m, s)
  | n + 1, s, m =>
    match read_u16 s with
    | .error e => .error e
    | .ok (id, s1) =>
      match read_string s1 with
      | .error e => .error e
      | .ok (name, s2) =>
        read_mappings n s2 (fun j => if j = id then some name else m j)

/-- The body of `Block::parse_data` after zstd decompression: skip the
flags byte, the big-endian `u16` lighting-complete field, the big-endian
`u32` timestamp and the mapping-version byte; read the big-endian `u16`
mapping count and that many mapping entries; then read the content-width
and params-width bytes **discarding the `Result`** (the source has
`let _content_width = read_u8(&mut cur);` with no `?`, so a failure here is
ignored and the cursor is left where it was); finally `read_exact` the
`VOLUME * 4` node bytes. -/
def parse_body (buf : Bytes) : Except Error Block :=
  match read_u8 buf with
  | .error e => .error e
  | .ok (_flags, s1) =>
    match read_u16 s1 with
    | .error e => .error e
    | .ok (_lighting_complete, s2) =>
      match read_u32 s2 with
      | .error e => .error e
      | .ok (_timestamp, s3) =>
        match read_u8 s3 with
        | .error e => .error e
        | .ok (_mapping_version, s4) =>
          match read_u16 s4 with
          | .error e => .error e
          | .ok (mappings_count, s5) =>
            match read_mappings mappings_count s5 (fun _ => none) with
            | .error e => .error e
            | .ok (mappings, s6) =>
              let s7 := match read_u8 s6 with
                        | .ok (_, r) => r
                        | .error _ => s6
              let s8 := match read_u8 s7 with
                        | .ok (_, r) => r
                        | .error _ => s7
              match read_exact (VOLUME * 4) s8 with
              | .error e => .error e
              | .ok (node_data, _) => .ok ⟨node_data, mappings⟩

/-- `Block::parse_data`: read the version byte, reject versions `< 29` with
`UnsupportedVersion`, hand the remaining bytes to the zstd decompressor
(`decompress`, an oracle for the external library; `none` models a
decompression failure, which the code converts to an I/O error), then parse
the decompressed body. -/
def parse_data (decompress : Bytes → Option Bytes) (data : Bytes) :
    Except Error Block :=
  match read_u8 data with
  | .error e => .error e
  | .ok (version, rest) =>
    if version < 29 then .error (.UnsupportedVersion version)
    else
      match decompress rest with
      | none => .error .Io
      | some buf => parse_body buf

/-- `glam::IVec3`: a signed 3-component integer vector. -/
structure IVec3 where
  x : Int
  y : Int
  z : Int
deriving DecidableEq, Repr

/-- `Block::node_index` with its three `assert!`s: `none` models the
assertion failure (process abort); in bounds, the flat index is
`z * 16 * 16 + y * 16 + x`. -/
def node_index (pos : IVec3) : Option Nat :=
  if 0 ≤ pos.x ∧ pos.x < 16 ∧ 0 ≤ pos.y ∧ pos.y < 16 ∧
      0 ≤ pos.z ∧ pos.z < 16 then
    some (pos.z.toNat * 16 * 16 + pos.y.toNat * 16 + pos.x.toNat)
  else
    none

/-- `Block::get_node`: id high byte at `2 * node_index`, id low byte at
`2 * node_index + 1`, `param1` at `VOLUME * 2 + node_index`, `param2` at
`VOLUME * 3 + node_index`; the id is `(id_hi << 8) | id_lo`, written here
as `id_hi * 256 + id_lo` (equal for byte values since `id_lo < 256`).
`none` propagates the `node_index` assertion failure. -/
def get_node (b : Block) (pos : IVec3) : Option Node :=
  match node_index pos with
  | none => none
  | some i =>
    some { id := b.node_data.getD (2 * i) 0 * 256 + b.node_data.getD (2 * i + 1) 0,
           param1 := b.node_data.getD (VOLUME * 2 + i) 0,
           param2 := b.node_data.getD (VOLUME * 3 + i) 0 }

/-- `Block::get_name_by_id`: direct lookup in the block-local table. -/
def get_name_by_id (b : Block) (id : Nat) : Option Bytes :=
  b.mappings id

/-- `struct GlobalMapping` of `src/light/src/node.rs`: a
`HashMap<String, u16>` (as a function) and the `u16` counter `last_id`. -/
structure GlobalMapping where
  mapping : String → Option Nat
  last_id : Nat

/-- `GlobalMapping::new`. -/
def GlobalMapping.new : GlobalMapping :=
  { mapping := fun _ => none, last_id := 0 }

/-- `GlobalMapping::get_or_insert_id`: return the stored id if the name was
seen, otherwise assign `last_id`, record the pair and increment the
counter.  `last_id` is a `u16`; `self.last_id += 1` is modelled with
wrap-around arithmetic `% 65536` (release-mode two's-complement overflow;
a debug build would abort at the same point). -/
def get_or_insert_id (g : GlobalMapping) (name : String) :
    Nat × GlobalMapping :=
  match g.mapping name with
  | some id => (id, g)
  | none =>
    let id := g.last_id
    (id, { mapping := fun n => if n = name then some id else g.mapping n,
           last_id := (g.last_id + 1) % 65536 })

/-- Fold `get_or_insert_id` over a list of names, keeping only the final
state (the shape of the decoding loop that interns every name of every
fetched block). -/
def internAll (g : GlobalMapping) (ns : List String) : GlobalMapping :=
  ns.foldl (fun g n => (get_or_insert_id g n).2) g

/-- `struct SqliteBackend`: the `blocks` table of the open connection,
keyed by integer columns `x, y, z` with a binary `data` column. -/
structure SqliteBackend where
  rows : List ((Int × Int × Int) × Bytes)

/-- `rusqlite::Connection::query_one` applied to the point query
`SELECT data FROM blocks WHERE x = ? AND y = ? AND z = ? LIMIT 1`:
the first matching row's payload, or the driver error
`QueryReturnedNoRows` when no row matches. -/
def query_one (rows : List ((Int × Int × Int) × Bytes)) (pos : IVec3) :
    Except SqliteError Bytes :=
  match rows.find? (fun r => r.1.1 = pos.x ∧ r.1.2.1 = pos.y ∧ r.1.2.2 = pos.z) with
  | some r => .ok r.2
  | none => .error .QueryReturnedNoRows

/-- `SqliteBackend::get_block_data`: the `?` operator converts any
`rusqlite::Error` through `#[from]` into `Error::Sqlite(..)`. -/
def get_block_data (b : SqliteBackend) (pos : IVec3) : Except Error Bytes :=
  match query_one b.rows pos with
  | .ok data => .ok data
  | .error e => .error (.Sqlite e)

/-- `str::trim` on a char list: drop whitespace from both ends. -/
def trimChars (l : List Char) : List Char :=
  ((l.dropWhile Char.isWhitespace).reverse.dropWhile Char.isWhitespace).reverse

/-- `str::trim` (ASCII-faithful; the repository's metadata files are
ASCII). -/
def trimS (s : String) : String := ⟨trimChars s.data⟩

/-- `str::split_once('=')` on a char list: split at the first `'='`. -/
def splitOnceEq : List Char → Option (List Char × List Char)
  | [] => none
  | c :: rest =>
    if c = '=' then some ([], rest)
    else
      match splitOnceEq rest with
      | some (a, b) => some (c :: a, b)
      | none => none

/-- `str::split_once("=")`. -/
def splitOnceS (s : String) : Option (String × String) :=
  match splitOnceEq s.data with
  | some (a, b) => some (⟨a⟩, ⟨b⟩)
  | none => none

/-- Split a char list at every `'\n'`. -/
def splitNL : List Char → List (List Char)
  | [] => [[]]
  | c :: rest =>
    if c = '\n' then [] :: splitNL rest
    else
      match splitNL rest with
      | h :: t => (c :: h) :: t
      | [] => [[c]]

/-- Drop one trailing `'\r'` (the CRLF handling of `str::lines`). -/
def stripCR (l : List Char) : List Char :=
  if l.getLast? = some '\r' then l.dropLast else l

/-- `str::lines`: split on `'\n'`, without a trailing empty line when the
string ends in `'\n'`, stripping one `'\r'` per line. -/
def rustLines (s : String) : List String :=
  if s.data = [] then []
  else
    let parts := splitNL s.data
    let parts := if s.data.getLast? = some '\n' then parts.dropLast else parts
    parts.map (fun l => ⟨stripCR l⟩)

/-- `HashMap::insert` on the association-list model of the metadata table:
replace the value when the key is present, append otherwise. -/
def insertKV (m : List (String × String)) (k v : String) :
    List (String × String) :=
  if m.any (fun p => p.1 = k) then
    m.map (fun p => if p.1 = k then (k, v) else p)
  else
    m ++ [(k, v)]

/-- The line loop of `WorldMeta::open`: trim each line, skip blanks, split
the trimmed line at the first `'='` — failing with `UnexpectedFormat`
carrying the **trimmed** line when there is none — and insert the trimmed
key/value pair. -/
def parseLines : List String → List (String × String) →
    Except Error (List (String × String))
  | [], acc => .ok acc
  | l :: rest, acc =>
    let t := trimS l
    if t = "" then parseLines rest acc
    else
      match splitOnceS t with
      | none => .error (.UnexpectedFormat t)
      | some (k, v) => parseLines rest (insertKV acc (trimS k) (trimS v))

/-- `WorldMeta::open` applied to the file's text content (file I/O
abstracted away): parse every line of `content`. -/
def world_meta_open (content : String) :
    Except Error (List (String × String)) :=
  parseLines (rustLines content) []

/-- Big-endian 16-bit encoding of `n < 65536`. -/
def be16 (n : Nat) : Bytes := [n / 256, n % 256]

/-- Big-endian 32-bit encoding of `n < 2^32`. -/
def be32 (n : Nat) : Bytes :=
  [n / 2 ^ 24 % 256, n / 2 ^ 16 % 256, n / 2 ^ 8 % 256, n % 256]

/-- One mapping-table entry on the wire: big-endian 16-bit local id,
big-endian 16-bit name length, then the name bytes. -/
def encodeEntry (e : Nat × Bytes) : Bytes :=
  be16 e.1 ++ be16 e.2.length ++ e.2

/-- The whole mapping table (entry count is written by `encodeBody`). -/
def encodeEntries (es : List (Nat × Bytes)) : Bytes :=
  (es.map encodeEntry).flatten

/-- A hand-built decompressed block body: flags byte, lighting-complete
`u16`, timestamp `u32`, mapping-version byte, entry count, mapping table,
the two width bytes, then the node data. -/
def encodeBody (flags lighting timestamp mapver : Nat)
    (es : List (Nat × Bytes)) (cw pw : Nat) (nd : Bytes) : Bytes :=
  [flags] ++ be16 lighting ++ be32 timestamp ++ [mapver] ++
    be16 es.length ++ encodeEntries es ++ [cw, pw] ++ nd

/-- Node data laid out as the wire format stores it: 8192 bytes of
big-endian 16-bit ids (node `i` at byte offsets `2*i`, `2*i+1`), then the
4096-byte `param1` plane, then the 4096-byte `param2` plane. -/
def mkNodeData (idf p1f p2f : Nat → Nat) : Bytes :=
  (List.range VOLUME).flatMap (fun i => [idf i / 256, idf i % 256]) ++
    (List.range VOLUME).map p1f ++ (List.range VOLUME).map p2f

/-- The effect of the mapping-table loop on the (empty) table: a left fold
of pointwise updates, later entries overwriting earlier ones. -/
def insertAll (es : List (Nat × Bytes)) : Nat → Option Bytes :=
  es.foldl (fun m e => fun j => if j = e.1 then some e.2 else m j)
    (fun _ => none)

/-- The node layout **as the specification describes it** (four contiguous
planes: id-high plane, id-low plane, `param1` plane, `param2` plane, the id
byte of node `i` at offset `i` of its plane).  This follows the spec's
words, not the source; it is compared against `get_node`. -/
def specPlaneNode (d : Bytes) (i : Nat) : Node :=
  { id := d.getD i 0 * 256 + d.getD (VOLUME + i) 0,
    param1 := d.getD (VOLUME * 2 + i) 0,
    param2 := d.getD (VOLUME * 3 + i) 0 }

/-- The `i`-th fresh name used to exercise `GlobalMapping`: `i` repetitions
of `'a'` (an injective family of names). -/
def repName (i : Nat) : String := ⟨List.replicate i 'a'⟩

/-- A concrete decoded block whose node bytes distinguish the source's
interleaved-id layout from the spec's two-id-plane description: byte 1 is 7
(the low id byte of node 0 under the source layout) and byte `VOLUME` is 9
(the low id byte of node 0 under the spec's description). -/
def blkC2 : Block :=
  ⟨((List.replicate (VOLUME * 4) 0).set 1 7).set VOLUME 9, fun _ => none⟩

/- ------------------------------------------------------------------ -/
/- Helper lemmas about the byte readers and the encoders.              -/
/- ------------------------------------------------------------------ -/

theorem read_u16_be16 (n : Nat) (s : Bytes) :
    read_u16 (be16 n ++ s) = .ok (n, s) := by
  simp only [be16, List.cons_append, List.nil_append, read_u16]
  congr 1
  simp only [Prod.mk.injEq, and_true]
  omega

theorem read_exact_append (l s : Bytes) :
    read_exact l.length (l ++ s) = .ok (l, s) := by
  unfold read_exact
  rw [if_pos (by simp)]
  simp [List.take_append_eq_append_take, List.drop_append_eq_append_drop,
    List.take_of_length_le, List.drop_of_length_le]

theorem read_string_encode (nm s : Bytes) (h : validUtf8 nm) :
    read_string (be16 nm.length ++ (nm ++ s)) = .ok (nm, s) := by
  unfold read_string
  simp only [read_u16_be16, read_exact_append, h, if_true]

theorem encodeEntries_nil : encodeEntries [] = [] := rfl

theorem encodeEntries_cons (e : Nat × Bytes) (es : List (Nat × Bytes)) :
    encodeEntries (e :: es) = encodeEntry e ++ encodeEntries es := by
  simp [encodeEntries]

theorem encodeEntries_append (a b : List (Nat × Bytes)) :
    encodeEntries (a ++ b) = encodeEntries a ++ encodeEntries b := by
  simp [encodeEntries]

theorem read_mappings_encode (es : List (Nat × Bytes)) :
    ∀ (s : Bytes) (m : Nat → Option Bytes), (∀ e ∈ es, validUtf8 e.2) →
    read_mappings es.length (encodeEntries es ++ s) m =
      .ok (es.foldl (fun m e => fun j => if j = e.1 then some e.2 else m j) m, s) := by
  induction es with
  | nil =>
    intro s m _
    simp [encodeEntries, read_mappings]
  | cons e tl ih =>
    intro s m hval
    have hshape : encodeEntries (e :: tl) ++ s =
        be16 e.1 ++ (be16 e.2.length ++ (e.2 ++ (encodeEntries tl ++ s))) := by
      simp [encodeEntries_cons, encodeEntry]
    rw [List.length_cons, hshape]
    simp only [read_mappings, read_u16_be16, read_string_encode _ _ (hval e (by simp))]
    rw [ih _ _ (fun x hx => hval x (by simp [hx]))]
    rfl

theorem parse_body_encode (flags lighting timestamp mapver cw pw : Nat)
    (es : List (Nat × Bytes)) (nd : Bytes)
    (hval : ∀ e ∈ es, validUtf8 e.2) (hnd : nd.length = VOLUME * 4) :
    parse_body (encodeBody flags lighting timestamp mapver es cw pw nd) =
      .ok ⟨nd, insertAll es⟩ := by
  have hshape : encodeBody flags lighting timestamp mapver es cw pw nd =
      flags :: (lighting / 256) :: (lighting % 256) ::
      (timestamp / 2 ^ 24 % 256) :: (timestamp / 2 ^ 16 % 256) ::
      (timestamp / 2 ^ 8 % 256) :: (timestamp % 256) :: mapver ::
      (es.length / 256) :: (es.length % 256) ::
      (encodeEntries es ++ (cw :: pw :: nd)) := by
    simp [encodeBody, be16, be32]
  rw [hshape]
  have hcount : es.length / 256 * 256 + es.length % 256 = es.length := by omega
  simp only [parse_body, read_u8, read_u16, read_u32, hcount,
    read_mappings_encode es (cw :: pw :: nd) _ hval]
  unfold read_exact
  rw [if_pos (le_of_eq hnd.symm)]
  rw [List.take_of_length_le (le_of_eq hnd)]
  rfl

theorem flatMap_pair_length (l : List Nat) (f g : Nat → Nat) :
    (l.flatMap fun j => [f j, g j]).length = 2 * l.length := by
  induction l with
  | nil => simp
  | cons a tl ih => simp [ih]; omega

theorem flatMap_pair_getElem (l : List Nat) (f g : Nat → Nat) :
    ∀ i (h : i < l.length),
      ((l.flatMap fun j => [f j, g j])[2 * i]? = some (f (l.get ⟨i, h⟩))) ∧
      ((l.flatMap fun j => [f j, g j])[2 * i + 1]? = some (g (l.get ⟨i, h⟩))) := by
  induction l with
  | nil => intro i h; simp at h
  | cons a tl ih =>
    intro i h
    match i with
    | 0 => simp
    | i + 1 =>
      have h' : i < tl.length := by simpa using h
      have e2 : 2 * (i + 1) = 2 + 2 * i := by omega
      have e3 : 2 * (i + 1) + 1 = 2 + (2 * i + 1) := by omega
      have hfm : (a :: tl).flatMap (fun j => [f j, g j]) =
          [f a, g a] ++ tl.flatMap (fun j => [f j, g j]) := by simp
      constructor
      · rw [hfm, e2]
        rw [List.getElem?_append_right (by simp)]
        simpa using (ih i h').1
      · rw [hfm, e3]
        rw [List.getElem?_append_right (by simp)]
        simpa using (ih i h').2

theorem mkNodeData_length (idf p1f p2f : Nat → Nat) :
    (mkNodeData idf p1f p2f).length = VOLUME * 4 := by
  unfold mkNodeData
  simp only [List.length_append, flatMap_pair_length, List.length_map,
    List.length_range]
  omega

theorem node_index_lt (pos : IVec3) (i : Nat) (h : node_index pos = some i) :
    i < VOLUME := by
  unfold node_index at h
  split at h
  · rename_i hb
    injection h with h'
    simp only [VOLUME]
    omega
  · cases h

theorem node_index_bounds (pos : IVec3)
    (hb : 0 ≤ pos.x ∧ pos.x < 16 ∧ 0 ≤ pos.y ∧ pos.y < 16 ∧
      0 ≤ pos.z ∧ pos.z < 16) :
    node_index pos =
      some (pos.z.toNat * 16 * 16 + pos.y.toNat * 16 + pos.x.toNat) := by
  unfold node_index
  rw [if_pos hb]

theorem get_node_mkNodeData (idf p1f p2f : Nat → Nat) (m : Nat → Option Bytes)
    (pos : IVec3) (i : Nat) (hidx : node_index pos = some i) :
    get_node ⟨mkNodeData idf p1f p2f, m⟩ pos = some ⟨idf i, p1f i, p2f i⟩ := by
  have hi : i < VOLUME := node_index_lt pos i hidx
  have hFM : ((List.range VOLUME).flatMap fun j => [idf j / 256, idf j % 256]).length
      = 2 * VOLUME := by
    rw [flatMap_pair_length]; simp
  have hget := flatMap_pair_getElem (List.range VOLUME)
      (fun j => idf j / 256) (fun j => idf j % 256) i (by simpa using hi)
  have hrange : (List.range VOLUME).get ⟨i, by simpa using hi⟩ = i := by
    simp
  rw [hrange] at hget
  unfold get_node
  rw [hidx]
  unfold mkNodeData
  have h1 : ((List.range VOLUME).flatMap (fun j => [idf j / 256, idf j % 256]) ++
      ((List.range VOLUME).map p1f ++ (List.range VOLUME).map p2f)).getD (2 * i) 0
      = idf i / 256 := by
    rw [List.getD_eq_getElem?_getD, List.getElem?_append_left (by omega), hget.1]
    rfl
  have h2 : ((List.range VOLUME).flatMap (fun j => [idf j / 256, idf j % 256]) ++
      ((List.range VOLUME).map p1f ++ (List.range VOLUME).map p2f)).getD (2 * i + 1) 0
      = idf i % 256 := by
    rw [List.getD_eq_getElem?_getD, List.getElem?_append_left (by omega), hget.2]
    rfl
  have e3 : VOLUME * 2 + i - 2 * VOLUME = i := by omega
  have e4 : VOLUME * 3 + i - 2 * VOLUME = VOLUME + i := by omega
  have e5 : VOLUME + i - VOLUME = i := by omega
  have h3 : ((List.range VOLUME).flatMap (fun j => [idf j / 256, idf j % 256]) ++
      ((List.range VOLUME).map p1f ++ (List.range VOLUME).map p2f)).getD
        (VOLUME * 2 + i) 0 = p1f i := by
    rw [List.getD_eq_getElem?_getD,
      List.getElem?_append_right (by rw [hFM]; omega), hFM, e3,
      List.getElem?_append_left (by simpa using hi),
      List.getElem?_map, List.getElem?_range hi]
    rfl
  have h4 : ((List.range VOLUME).flatMap (fun j => [idf j / 256, idf j % 256]) ++
      ((List.range VOLUME).map p1f ++ (List.range VOLUME).map p2f)).getD
        (VOLUME * 3 + i) 0 = p2f i := by
    rw [List.getD_eq_getElem?_getD,
      List.getElem?_append_right (by rw [hFM]; omega), hFM, e4,
      List.getElem?_append_right (by simp), List.length_map,
      List.length_range, e5, List.getElem?_map, List.getElem?_range hi]
    rfl
  simp only [get_node, hidx, mkNodeData, List.append_assoc, h1, h2, h3, h4]
  have : idf i / 256 * 256 + idf i % 256 = idf i := by omega
  rw [this]

theorem encodeBody_length (flags lighting timestamp mapver cw pw : Nat)
    (es : List (Nat × Bytes)) (nd : Bytes) :
    (encodeBody flags lighting timestamp mapver es cw pw nd).length =
      12 + (encodeEntries es).length + nd.length := by
  simp [encodeBody, be16, be32]
  omega

theorem read_mappings_trunc (es : List (Nat × Bytes)) :
    ∀ (k : Nat) (m : Nat → Option Bytes), (∀ e ∈ es, validUtf8 e.2) →
    k < (encodeEntries es).length →
    read_mappings es.length ((encodeEntries es).take k) m = .error .Io := by
  induction es with
  | nil => intro k m _ hk; simp [encodeEntries] at hk
  | cons e tl ih =>
    intro k m hval hk
    have hshape : encodeEntries (e :: tl) =
        (e.1 / 256) :: (e.1 % 256) :: (e.2.length / 256) :: (e.2.length % 256) ::
        (e.2 ++ encodeEntries tl) := by
      simp [encodeEntries_cons, encodeEntry, be16]
    rw [hshape] at hk ⊢
    simp only [List.length_cons, List.length_append] at hk
    rw [List.length_cons]
    match k with
    | 0 =>
      simp [read_mappings, read_u16]
    | 1 =>
      simp [read_mappings, read_u16, List.take_succ_cons]
    | 2 =>
      simp [read_mappings, read_u16, read_string, List.take_succ_cons]
    | 3 =>
      simp [read_mappings, read_u16, read_string, List.take_succ_cons]
    | t + 4 =>
      simp only [List.take_succ_cons]
      have hlen : e.2.length / 256 * 256 + e.2.length % 256 = e.2.length := by
        omega
      by_cases ht : t < e.2.length
      · have htake : (e.2 ++ encodeEntries tl).take t = e.2.take t ++ (encodeEntries tl).take (t - e.2.length) := List.take_append_eq_append_take
        have ht0 : t - e.2.length = 0 := by omega
        rw [htake, ht0, List.take_zero, List.append_nil]
        have hlt : ¬ (e.2.length ≤ (e.2.take t).length) := by
          simp only [List.length_take]
          omega
        simp only [read_mappings, read_u16, read_string, read_exact, hlen,
          if_neg hlt]
      · push_neg at ht
        have htake : (e.2 ++ encodeEntries tl).take t =
            e.2 ++ (encodeEntries tl).take (t - e.2.length) := by
          rw [List.take_append_eq_append_take, List.take_of_length_le ht]
        rw [htake]
        simp only [read_mappings, read_u16, read_string, hlen,
          read_exact_append, hval e (by simp), if_true]
        exact ih (t - e.2.length) _ (fun x hx => hval x (by simp [hx]))
          (by omega)

theorem parse_body_trunc (flags lighting timestamp mapver cw pw : Nat)
    (es : List (Nat × Bytes)) (nd : Bytes) (k : Nat)
    (hval : ∀ e ∈ es, validUtf8 e.2) (hnd : nd.length = VOLUME * 4)
    (hk : k < (encodeBody flags lighting timestamp mapver es cw pw nd).length) :
    parse_body ((encodeBody flags lighting timestamp mapver es cw pw nd).take k) =
      .error .Io := by
  rw [encodeBody_length] at hk
  have hshape : encodeBody flags lighting timestamp mapver es cw pw nd =
      [flags, lighting / 256, lighting % 256, timestamp / 2 ^ 24 % 256,
       timestamp / 2 ^ 16 % 256, timestamp / 2 ^ 8 % 256, timestamp % 256,
       mapver, es.length / 256, es.length % 256] ++
      (encodeEntries es ++ (cw :: pw :: nd)) := by
    simp [encodeBody, be16, be32]
  rw [hshape]
  by_cases hk10 : k < 10
  · have htk : ([flags, lighting / 256, lighting % 256, timestamp / 2 ^ 24 % 256,
       timestamp / 2 ^ 16 % 256, timestamp / 2 ^ 8 % 256, timestamp % 256,
       mapver, es.length / 256, es.length % 256] ++
        (encodeEntries es ++ (cw :: pw :: nd))).take k =
        ([flags, lighting / 256, lighting % 256, timestamp / 2 ^ 24 % 256,
         timestamp / 2 ^ 16 % 256, timestamp / 2 ^ 8 % 256, timestamp % 256,
         mapver, es.length / 256, es.length % 256] : Bytes).take k := by
      rw [List.take_append_eq_append_take]
      have : k - 10 = 0 := by omega
      simp [this]
    rw [htk]
    interval_cases k <;>
      simp [parse_body, read_u8, read_u16, read_u32, List.take_succ_cons]
  · push_neg at hk10
    obtain ⟨k', rfl⟩ : ∃ k', k = 10 + k' := ⟨k - 10, by omega⟩
    rw [show (10 : Nat) + k' =
        ([flags, lighting / 256, lighting % 256, timestamp / 2 ^ 24 % 256,
          timestamp / 2 ^ 16 % 256, timestamp / 2 ^ 8 % 256, timestamp % 256,
          mapver, es.length / 256, es.length % 256] : Bytes).length + k'
        from by simp]
    rw [List.take_append]
    have hcount : es.length / 256 * 256 + es.length % 256 = es.length := by
      omega
    simp only [List.cons_append, List.nil_append, parse_body, read_u8,
      read_u16, read_u32, hcount]
    by_cases hkE : k' < (encodeEntries es).length
    · have htk : (encodeEntries es ++ (cw :: pw :: nd)).take k' =
          (encodeEntries es).take k' := by
        rw [List.take_append_eq_append_take]
        have : k' - (encodeEntries es).length = 0 := by omega
        simp [this]
      rw [htk, read_mappings_trunc es k' _ hval hkE]
    · push_neg at hkE
      obtain ⟨t, rfl⟩ : ∃ t, k' = (encodeEntries es).length + t :=
        ⟨k' - (encodeEntries es).length, by omega⟩
      rw [List.take_append]
      rw [read_mappings_encode es _ _ hval]
      have hts : t < 2 + VOLUME * 4 := by omega
      match t with
      | 0 =>
        simp [read_u8, read_exact, VOLUME]
      | 1 =>
        simp [read_u8, read_exact, List.take_succ_cons, VOLUME]
      | u + 2 =>
        simp only [List.take_succ_cons, read_u8]
        have hlt : ¬ (VOLUME * 4 ≤ (nd.take u).length) := by
          simp only [List.length_take]
          omega
        simp only [read_exact, if_neg hlt]

theorem read_mappings_invalid (pre : List (Nat × Bytes)) :
    ∀ (extra j : Nat) (bad s : Bytes) (m : Nat → Option Bytes),
    (∀ e ∈ pre, validUtf8 e.2) → validUtf8 bad = false →
    read_mappings (pre.length + (extra + 1))
      (encodeEntries pre ++ (encodeEntry (j, bad) ++ s)) m =
      .error .InvalidUtf8 := by
  induction pre with
  | nil =>
    intro extra j bad s m _ hbad
    have hshape : encodeEntry (j, bad) ++ s =
        be16 j ++ (be16 bad.length ++ (bad ++ s)) := by
      simp [encodeEntry]
    simp only [List.length_nil, Nat.zero_add, encodeEntries_nil,
      List.nil_append, hshape]
    simp only [read_mappings, read_u16_be16]
    unfold read_string
    simp only [read_u16_be16, read_exact_append, hbad]
    rfl
  | cons e tl ih =>
    intro extra j bad s m hval hbad
    have hshape : encodeEntries (e :: tl) ++ (encodeEntry (j, bad) ++ s) =
        be16 e.1 ++ (be16 e.2.length ++
          (e.2 ++ (encodeEntries tl ++ (encodeEntry (j, bad) ++ s)))) := by
      simp [encodeEntries_cons, encodeEntry]
    rw [hshape, List.length_cons,
      show tl.length + 1 + (extra + 1) = (tl.length + (extra + 1)) + 1 from by
        omega]
    simp only [read_mappings, read_u16_be16,
      read_string_encode _ _ (hval e (by simp))]
    exact ih extra j bad _ _ (fun x hx => hval x (by simp [hx])) hbad

theorem insertAll_append_dup (es : List (Nat × Bytes)) (j : Nat)
    (n1 n2 : Bytes) : insertAll (es ++ [(j, n1), (j, n2)]) j = some n2 := by
  unfold insertAll
  rw [List.foldl_append]
  simp

theorem foldl_insert_not_mem (es : List (Nat × Bytes)) :
    ∀ (m : Nat → Option Bytes) (j : Nat), j ∉ es.map Prod.fst →
    es.foldl (fun m e => fun jj => if jj = e.1 then some e.2 else m jj) m j =
      m j := by
  induction es with
  | nil => intro m j _; rfl
  | cons e tl ih =>
    intro m j hj
    simp only [List.map_cons, List.mem_cons, not_or] at hj
    simp only [List.foldl_cons]
    rw [ih _ _ hj.2]
    simp [hj.1]

theorem insertAll_mem (es : List (Nat × Bytes))
    (hnd : (es.map Prod.fst).Nodup) (e : Nat × Bytes) (he : e ∈ es) :
    insertAll es e.1 = some e.2 := by
  obtain ⟨pre, post, rfl⟩ := List.append_of_mem he
  have hpost : e.1 ∉ post.map Prod.fst := by
    rw [List.map_append] at hnd
    have h2 := hnd.of_append_right
    rw [List.map_cons] at h2
    exact (List.nodup_cons.mp h2).1
  unfold insertAll
  rw [List.foldl_append, List.foldl_cons]
  rw [foldl_insert_not_mem post _ e.1 hpost]
  simp

theorem get_or_insert_id_seen (g : GlobalMapping) (n : String) (id : Nat)
    (h : g.mapping n = some id) : get_or_insert_id g n = (id, g) := by
  unfold get_or_insert_id
  rw [h]

theorem get_or_insert_id_fresh (g : GlobalMapping) (n : String)
    (h : g.mapping n = none) :
    get_or_insert_id g n =
      (g.last_id,
       ⟨fun x => if x = n then some g.last_id else g.mapping x,
        (g.last_id + 1) % 65536⟩) := by
  unfold get_or_insert_id
  rw [h]

theorem get_or_insert_id_fresh_fst (g : GlobalMapping) (n : String)
    (h : g.mapping n = none) : (get_or_insert_id g n).1 = g.last_id := by
  unfold get_or_insert_id
  rw [h]

theorem internAll_cons (g : GlobalMapping) (n : String) (ns : List String) :
    internAll g (n :: ns) = internAll (get_or_insert_id g n).2 ns := rfl

theorem internAll_spec (ns : List String) :
    ∀ (g : GlobalMapping), g.last_id < 65536 → ns.Nodup →
    (∀ n ∈ ns, g.mapping n = none) →
    (internAll g ns).last_id = (g.last_id + ns.length) % 65536 ∧
    (∀ i (h : i < ns.length),
      (internAll g ns).mapping (ns.get ⟨i, h⟩) =
        some ((g.last_id + i) % 65536)) ∧
    (∀ n, n ∉ ns → (internAll g ns).mapping n = g.mapping n) := by
  induction ns with
  | nil =>
    intro g hlt _ _
    refine ⟨by simp [internAll, Nat.mod_eq_of_lt hlt], ?_, fun n _ => rfl⟩
    intro i h
    simp at h
  | cons n0 tl ih =>
    intro g hlt hnd hfresh
    have hfresh0 : g.mapping n0 = none := hfresh n0 (by simp)
    have hnd' := List.nodup_cons.mp hnd
    have hstep : internAll g (n0 :: tl) =
        internAll ⟨fun x => if x = n0 then some g.last_id else g.mapping x,
          (g.last_id + 1) % 65536⟩ tl := by
      rw [internAll_cons, get_or_insert_id_fresh g n0 hfresh0]
    have hfresh' : ∀ n ∈ tl,
        (⟨fun x => if x = n0 then some g.last_id else g.mapping x,
          (g.last_id + 1) % 65536⟩ : GlobalMapping).mapping n = none := by
      intro n hn
      have hne : n ≠ n0 := fun h => hnd'.1 (h ▸ hn)
      simp only [if_neg hne]
      exact hfresh n (by simp [hn])
    have hih := ih ⟨fun x => if x = n0 then some g.last_id else g.mapping x,
        (g.last_id + 1) % 65536⟩ (Nat.mod_lt _ (by omega)) hnd'.2 hfresh'
    have hlast : (⟨fun x => if x = n0 then some g.last_id else g.mapping x,
        (g.last_id + 1) % 65536⟩ : GlobalMapping).last_id =
        (g.last_id + 1) % 65536 := rfl
    rw [hlast] at hih
    refine ⟨?_, ?_, ?_⟩
    · rw [hstep, hih.1]
      simp only [List.length_cons]
      omega
    · intro i h
      match i with
      | 0 =>
        have hget0 : (n0 :: tl).get ⟨0, h⟩ = n0 := rfl
        rw [hstep, hget0, hih.2.2 n0 hnd'.1]
        simp [Nat.mod_eq_of_lt hlt]
      | i + 1 =>
        have h' : i < tl.length := by simpa using h
        rw [hstep]
        have hget : (n0 :: tl).get ⟨i + 1, h⟩ = tl.get ⟨i, h'⟩ := rfl
        rw [hget, hih.2.1 i h']
        congr 1
        omega
    · intro n hn
      simp only [List.mem_cons, not_or] at hn
      rw [hstep, hih.2.2 n hn.2]
      simp [hn.1]

theorem repName_inj : Function.Injective repName := by
  intro i j h
  have h2 := congrArg (fun s : String => s.data.length) h
  simpa [repName] using h2

theorem repName_names_get (N i : Nat) (h : i < N) :
    ((List.range N).map repName).get ⟨i, by simpa using h⟩ = repName i := by
  simp [List.get_eq_getElem]

theorem repName_names_nodup (N : Nat) :
    ((List.range N).map repName).Nodup :=
  (List.nodup_range N).map repName_inj

theorem parseLines_error (pre : List String) :
    ∀ (l : String) (post : List String) (acc : List (String × String)),
    (∀ p ∈ pre, trimS p = "" ∨ splitOnceS (trimS p) ≠ none) →
    trimS l ≠ "" → splitOnceS (trimS l) = none →
    parseLines (pre ++ l :: post) acc =
      .error (.UnexpectedFormat (trimS l)) := by
  induction pre with
  | nil =>
    intro l post acc _ hne hsplit
    simp only [List.nil_append, parseLines]
    rw [if_neg hne, hsplit]
  | cons p tl ih =>
    intro l post acc hpre hne hsplit
    simp only [List.cons_append, parseLines]
    rcases hpre p (by simp) with hblank | hsome
    · rw [if_pos hblank]
      exact ih l post acc (fun x hx => hpre x (by simp [hx])) hne hsplit
    · have hpne : trimS p ≠ "" := by
        intro h
        rw [h] at hsome
        exact hsome rfl
      rw [if_neg hpne]
      obtain ⟨kv, hkv⟩ : ∃ kv, splitOnceS (trimS p) = some kv := by
        cases h : splitOnceS (trimS p) with
        | none => exact absurd h hsome
        | some kv => exact ⟨kv, rfl⟩
      rw [hkv]
      exact ih l post _ (fun x hx => hpre x (by simp [hx])) hne hsplit

/- ------------------------------------------------------------------ -/
/- Claim theorems.                                                     -/
/- ------------------------------------------------------------------ -/

/-- C3: for every input byte sequence whose first byte (the version byte)
is strictly less than 29, `Block::parse_data` fails with
`UnsupportedVersion` carrying that version value, regardless of the
remaining bytes and of what the decompressor would do. -/
theorem parse_data_unsupported_version (decompress : Bytes → Option Bytes)
    (v : Nat) (rest : Bytes) (h : v < 29) :
    parse_data decompress (v :: rest) = .error (.UnsupportedVersion v) := by
  unfold parse_data
  simp only [read_u8]
  rw [if_pos h]

/-- Witness for C3 at version byte 28. -/
theorem parse_data_unsupported_version_witness :
    (28 : Nat) < 29 ∧
    parse_data (fun _ => none) (28 :: [1, 2, 3]) =
      .error (.UnsupportedVersion 28) :=
  ⟨by decide, parse_data_unsupported_version (fun _ => none) 28 [1, 2, 3]
    (by decide)⟩

/-- C8: `Block::get_node` with any coordinate component outside `[0,16)`
hits the `assert!` in `node_index` (modelled as `none`: a process abort,
not a recoverable error and not a wrap-around read); with all components in
`[0,16)` the bounds check passes and a node is returned. -/
theorem get_node_bounds_contract (b : Block) (pos : IVec3) :
    ((pos.x < 0 ∨ 16 ≤ pos.x ∨ pos.y < 0 ∨ 16 ≤ pos.y ∨
        pos.z < 0 ∨ 16 ≤ pos.z) → get_node b pos = none) ∧
    ((0 ≤ pos.x ∧ pos.x < 16 ∧ 0 ≤ pos.y ∧ pos.y < 16 ∧
        0 ≤ pos.z ∧ pos.z < 16) → ∃ n, get_node b pos = some n) := by
  constructor
  · intro h
    have hni : node_index pos = none := by
      unfold node_index
      rw [if_neg (by omega)]
    unfold get_node
    rw [hni]
  · intro h
    unfold get_node
    rw [node_index_bounds pos h]
    exact ⟨_, rfl⟩

/-- Witness for C8: out-of-range `x = 16` aborts, in-range `(1,2,3)`
passes, on a concrete block. -/
theorem get_node_bounds_contract_witness :
    get_node ⟨[], fun _ => none⟩ ⟨16, 0, 0⟩ = none ∧
    ∃ n, get_node ⟨[], fun _ => none⟩ ⟨1, 2, 3⟩ = some n :=
  ⟨(get_node_bounds_contract ⟨[], fun _ => none⟩ ⟨16, 0, 0⟩).1 (by decide),
   (get_node_bounds_contract ⟨[], fun _ => none⟩ ⟨1, 2, 3⟩).2 (by decide)⟩

/-- C6 counterexample: with no matching row, `SqliteBackend::get_block_data`
returns the wrapped driver error `Sqlite(QueryReturnedNoRows)` — the `?`
operator converts `rusqlite`'s no-row error through `#[from]` — and that is
a different value than `BlockNotFound` (which nothing in the crate ever
constructs). -/
theorem get_block_data_no_row_cex :
    get_block_data ⟨[]⟩ ⟨0, 0, 0⟩ = .error (.Sqlite .QueryReturnedNoRows) ∧
    Error.Sqlite .QueryReturnedNoRows ≠ Error.BlockNotFound :=
  ⟨rfl, by decide⟩

/-- C6 amended: when no row matches the `(x, y, z)` point query the fetch
fails with the Sqlite-wrapped driver error `QueryReturnedNoRows` (not
`BlockNotFound`); every driver failure is wrapped as the Sqlite error kind;
a matching row's payload is returned unchanged. -/
theorem get_block_data_no_row_sqlite_error (b : SqliteBackend) (pos : IVec3) :
    (b.rows.find? (fun r => r.1.1 = pos.x ∧ r.1.2.1 = pos.y ∧
        r.1.2.2 = pos.z) = none →
      get_block_data b pos = .error (.Sqlite .QueryReturnedNoRows)) ∧
    (∀ e, query_one b.rows pos = .error e →
      get_block_data b pos = .error (.Sqlite e)) ∧
    (∀ d, query_one b.rows pos = .ok d → get_block_data b pos = .ok d) := by
  refine ⟨?_, ?_, ?_⟩
  · intro h
    unfold get_block_data query_one
    rw [h]
  · intro e h
    unfold get_block_data
    rw [h]
  · intro d h
    unfold get_block_data
    rw [h]

/-- Witness for C6: an empty table misses, a one-row table hits. -/
theorem get_block_data_no_row_sqlite_error_witness :
    get_block_data ⟨[]⟩ ⟨0, 0, 0⟩ = .error (.Sqlite .QueryReturnedNoRows) ∧
    get_block_data ⟨[((1, 2, 3), [9])]⟩ ⟨1, 2, 3⟩ = .ok [9] :=
  ⟨(get_block_data_no_row_sqlite_error ⟨[]⟩ ⟨0, 0, 0⟩).1 rfl,
   (get_block_data_no_row_sqlite_error ⟨[((1, 2, 3), [9])]⟩ ⟨1, 2, 3⟩).2.2
     [9] rfl⟩

/-- C9 counterexample: `WorldMeta::open` rebinds each line to its trimmed
form before splitting, so the `UnexpectedFormat` error carries the
**trimmed** text `"nobackend"`, not the exact line `"  nobackend "` of the
input. -/
theorem world_meta_unexpected_format_cex :
    world_meta_open "  nobackend \n" = .error (.UnexpectedFormat "nobackend") ∧
    ("nobackend" : String) ≠ "  nobackend " :=
  ⟨rfl, by decide⟩

/-- C9 amended: the metadata text `"backend = sqlite3\n\n  \n"` parses to
exactly the single pair `backend → sqlite3` (blank and whitespace-only
lines ignored, key and value trimmed); and when the first non-blank line
lacking `'='` is `l` (every earlier line being blank or containing `'='`),
parsing fails with `UnexpectedFormat` carrying `l`'s **trimmed** text. -/
theorem world_meta_parse_props :
    world_meta_open "backend = sqlite3\n\n  \n" = .ok [("backend", "sqlite3")] ∧
    (∀ (pre : List String) (l : String) (post : List String)
        (acc : List (String × String)),
      (∀ p ∈ pre, trimS p = "" ∨ splitOnceS (trimS p) ≠ none) →
      trimS l ≠ "" → splitOnceS (trimS l) = none →
      parseLines (pre ++ l :: post) acc =
        .error (.UnexpectedFormat (trimS l))) :=
  ⟨rfl, parseLines_error⟩

/-- Witness for C9: a concrete good line, bad line and trailing line. -/
theorem world_meta_parse_props_witness :
    (∀ p ∈ ["a = b"], trimS p = "" ∨ splitOnceS (trimS p) ≠ none) ∧
    trimS " oops " ≠ "" ∧ splitOnceS (trimS " oops ") = none ∧
    parseLines (["a = b"] ++ " oops " :: ["x = y"]) [] =
      .error (.UnexpectedFormat (trimS " oops ")) :=
  ⟨by decide, by decide, by decide,
   world_meta_parse_props.2 ["a = b"] " oops " ["x = y"] []
     (by decide) (by decide) (by decide)⟩

theorem internAll_wrap_state :
    (internAll GlobalMapping.new ((List.range 65536).map repName)).last_id
      = 0 ∧
    (internAll GlobalMapping.new
        ((List.range 65536).map repName)).mapping (repName 65536) = none := by
  have hspec := internAll_spec ((List.range 65536).map repName)
    GlobalMapping.new (by decide) (repName_names_nodup 65536)
    (fun n _ => rfl)
  constructor
  · rw [hspec.1, List.length_map, List.length_range]
    rfl
  · rw [hspec.2.2 (repName 65536) ?_]
    · rfl
    · intro hmem
      obtain ⟨i, hi, heq⟩ := List.mem_map.mp hmem
      have h2 := repName_inj heq
      rw [List.mem_range] at hi
      omega

/-- C5 counterexample: `last_id` is a `u16`; after interning 65536 distinct
names the counter wraps to 0 and the 65537th distinct name receives id 0 —
the same id the very first name received — so distinct names *can* be
assigned the same id. -/
theorem get_or_insert_id_collision_cex :
    (get_or_insert_id GlobalMapping.new (repName 0)).1 = 0 ∧
    (get_or_insert_id
      (internAll GlobalMapping.new ((List.range 65536).map repName))
      (repName 65536)).1 = 0 ∧
    repName 0 ≠ repName 65536 := by
  refine ⟨rfl, ?_, ?_⟩
  · rw [get_or_insert_id_fresh_fst _ _ internAll_wrap_state.2]
    exact internAll_wrap_state.1
  · intro h
    have h2 := repName_inj h
    omega

/-- C5 amended: `get_or_insert_id` is idempotent per name (the repeated
call returns the same id and leaves the mapping unchanged); the first name
interned into a fresh mapping receives id 0; and ids are assigned
sequentially 0, 1, 2, … in first-seen order — hence distinct names receive
distinct ids — **provided at most 2^16 distinct names are interned** (the
`u16` counter wraps past that, see the counterexample). -/
theorem get_or_insert_id_props :
    (∀ (g : GlobalMapping) (name : String),
      get_or_insert_id (get_or_insert_id g name).2 name =
        ((get_or_insert_id g name).1, (get_or_insert_id g name).2)) ∧
    (∀ name, (get_or_insert_id GlobalMapping.new name).1 = 0) ∧
    (∀ (ns : List String), ns.Nodup → ns.length ≤ 65536 →
      ∀ i (h : i < ns.length),
        (internAll GlobalMapping.new ns).mapping (ns.get ⟨i, h⟩) = some i) := by
  refine ⟨?_, fun _ => rfl, ?_⟩
  · intro g name
    cases h : g.mapping name with
    | some id =>
      rw [get_or_insert_id_seen g name id h]
      exact get_or_insert_id_seen g name id h
    | none =>
      rw [get_or_insert_id_fresh g name h]
      exact get_or_insert_id_seen _ name g.last_id (by simp)
  · intro ns hnd hlen i h
    have hspec := internAll_spec ns GlobalMapping.new (by decide) hnd
      (fun n _ => rfl)
    rw [hspec.2.1 i h]
    have : i < 65536 := by omega
    simp [GlobalMapping.new, Nat.mod_eq_of_lt this]

/-- Witness for C5: idempotence on `"a"`, first id 0 on `"q"`, sequential
ids on `["a", "b"]`. -/
theorem get_or_insert_id_props_witness :
    get_or_insert_id (get_or_insert_id GlobalMapping.new "a").2 "a" =
      ((get_or_insert_id GlobalMapping.new "a").1,
       (get_or_insert_id GlobalMapping.new "a").2) ∧
    (get_or_insert_id GlobalMapping.new "q").1 = 0 ∧
    (["a", "b"] : List String).Nodup ∧
    (["a", "b"] : List String).length ≤ 65536 ∧
    (internAll GlobalMapping.new ["a", "b"]).mapping
      ((["a", "b"] : List String).get ⟨1, by decide⟩) = some 1 :=
  ⟨get_or_insert_id_props.1 GlobalMapping.new "a",
   get_or_insert_id_props.2.1 "q",
   by decide, by decide,
   get_or_insert_id_props.2.2 ["a", "b"] (by decide) (by decide) 1
     (by decide)⟩

/-- C10: `last_id` is a 16-bit unsigned counter.  While at most 2^16
distinct names are interned, distinct names receive distinct ids; after
interning 65536 distinct names the counter has wrapped to 0 (release-mode
`u16` wrap-around; a checked build would abort at the same increment), and
the 65537th distinct name is assigned id 0 — the id already given to the
first name, i.e. id reuse. -/
theorem global_mapping_u16_wrap :
    (∀ (ns : List String), ns.Nodup → ns.length ≤ 65536 →
      ∀ i j (hi : i < ns.length) (hj : j < ns.length), i ≠ j →
        (internAll GlobalMapping.new ns).mapping (ns.get ⟨i, hi⟩) ≠
          (internAll GlobalMapping.new ns).mapping (ns.get ⟨j, hj⟩)) ∧
    (internAll GlobalMapping.new ((List.range 65536).map repName)).last_id
      = 0 ∧
    (get_or_insert_id
      (internAll GlobalMapping.new ((List.range 65536).map repName))
      (repName 65536)).1 =
      (get_or_insert_id GlobalMapping.new (repName 0)).1 := by
  refine ⟨?_, internAll_wrap_state.1, ?_⟩
  · intro ns hnd hlen i j hi hj hne
    have hspec := internAll_spec ns GlobalMapping.new (by decide) hnd
      (fun n _ => rfl)
    rw [hspec.2.1 i hi, hspec.2.1 j hj]
    have h1 : i < 65536 := by omega
    have h2 : j < 65536 := by omega
    simp only [GlobalMapping.new, Nat.zero_add, Nat.mod_eq_of_lt h1,
      Nat.mod_eq_of_lt h2]
    intro hcontra
    exact hne (Option.some.inj hcontra)
  · rw [get_or_insert_id_fresh_fst _ _ internAll_wrap_state.2]
    exact internAll_wrap_state.1

/-- Witness for C10: distinct ids for the two names of `["a", "b"]`. -/
theorem global_mapping_u16_wrap_witness :
    (["a", "b"] : List String).Nodup ∧
    (["a", "b"] : List String).length ≤ 65536 ∧ (0 : Nat) ≠ 1 ∧
    (internAll GlobalMapping.new ["a", "b"]).mapping
        ((["a", "b"] : List String).get ⟨0, by decide⟩) ≠
      (internAll GlobalMapping.new ["a", "b"]).mapping
        ((["a", "b"] : List String).get ⟨1, by decide⟩) :=
  ⟨by decide, by decide, by decide,
   global_mapping_u16_wrap.1 ["a", "b"] (by decide) (by decide) 0 1
     (by decide) (by decide) (by decide)⟩

theorem blkC2_byte0 : blkC2.node_data.getD 0 0 = 0 := by
  show (((List.replicate (VOLUME * 4) 0).set 1 7).set VOLUME 9).getD 0 0 = 0
  rw [List.getD_eq_getElem?_getD, List.getElem?_set, if_neg (by decide),
    List.getElem?_set, if_neg (by decide), List.getElem?_replicate,
    if_pos (by decide)]
  rfl

theorem blkC2_byte1 : blkC2.node_data.getD 1 0 = 7 := by
  show (((List.replicate (VOLUME * 4) 0).set 1 7).set VOLUME 9).getD 1 0 = 7
  rw [List.getD_eq_getElem?_getD, List.getElem?_set, if_neg (by decide),
    List.getElem?_set, if_pos (by decide),
    if_pos (by rw [List.length_replicate]; decide)]
  rfl

theorem blkC2_byteV : blkC2.node_data.getD VOLUME 0 = 9 := by
  show (((List.replicate (VOLUME * 4) 0).set 1 7).set VOLUME 9).getD VOLUME 0
    = 9
  rw [List.getD_eq_getElem?_getD, List.getElem?_set, if_pos (by decide),
    if_pos (by rw [List.length_set, List.length_replicate]; decide)]
  rfl

theorem blkC2_byteV2 : blkC2.node_data.getD (VOLUME * 2) 0 = 0 := by
  show (((List.replicate (VOLUME * 4) 0).set 1 7).set VOLUME 9).getD
    (VOLUME * 2) 0 = 0
  rw [List.getD_eq_getElem?_getD, List.getElem?_set, if_neg (by decide),
    List.getElem?_set, if_neg (by decide), List.getElem?_replicate,
    if_pos (by decide)]
  rfl

theorem blkC2_byteV3 : blkC2.node_data.getD (VOLUME * 3) 0 = 0 := by
  show (((List.replicate (VOLUME * 4) 0).set 1 7).set VOLUME 9).getD
    (VOLUME * 3) 0 = 0
  rw [List.getD_eq_getElem?_getD, List.getElem?_set, if_neg (by decide),
    List.getElem?_set, if_neg (by decide), List.getElem?_replicate,
    if_pos (by decide)]
  rfl

/-- C2 counterexample: the id bytes are **interleaved** (node `i`'s id at
byte offsets `2i` and `2i+1`), not stored as two separate 4096-byte planes.
On `blkC2`, `get_node` at the origin reads its low id byte from offset 1
(value 7), while the spec's plane description (`specPlaneNode`) would read
it from offset `VOLUME = 4096` (value 9): the two disagree. -/
theorem get_node_plane_layout_cex :
    get_node blkC2 ⟨0, 0, 0⟩ = some ⟨7, 0, 0⟩ ∧
    specPlaneNode blkC2.node_data 0 = ⟨9, 0, 0⟩ ∧
    get_node blkC2 ⟨0, 0, 0⟩ ≠ some (specPlaneNode blkC2.node_data 0) := by
  have hni : node_index ⟨0, 0, 0⟩ = some 0 := by decide
  have hg : get_node blkC2 ⟨0, 0, 0⟩ = some ⟨7, 0, 0⟩ := by
    unfold get_node
    rw [hni]
    simp only [Nat.mul_zero, Nat.zero_add, Nat.add_zero]
    rw [blkC2_byte0, blkC2_byte1, blkC2_byteV2, blkC2_byteV3]
  have hs : specPlaneNode blkC2.node_data 0 = ⟨9, 0, 0⟩ := by
    unfold specPlaneNode
    simp only [Nat.add_zero, Nat.zero_add]
    rw [blkC2_byte0, blkC2_byteV, blkC2_byteV2, blkC2_byteV3]
  refine ⟨hg, hs, ?_⟩
  rw [hg, hs]
  decide

/-- C2 amended: the 16384 node bytes are laid out as 8192 bytes of
big-endian 16-bit ids — node `i`'s id high byte at offset `2i` and low byte
at offset `2i+1` — followed by the 4096-byte `param1` plane and the
4096-byte `param2` plane; `get_node` computes the flat index
`z*256 + y*16 + x` and returns the id `(hi << 8) | lo` from those two id
bytes together with the two plane bytes at that index. -/
theorem get_node_wire_layout (idf p1f p2f : Nat → Nat)
    (m : Nat → Option Bytes) (pos : IVec3)
    (hb : 0 ≤ pos.x ∧ pos.x < 16 ∧ 0 ≤ pos.y ∧ pos.y < 16 ∧
      0 ≤ pos.z ∧ pos.z < 16) :
    get_node ⟨mkNodeData idf p1f p2f, m⟩ pos =
      some ⟨idf (pos.z.toNat * 16 * 16 + pos.y.toNat * 16 + pos.x.toNat),
            p1f (pos.z.toNat * 16 * 16 + pos.y.toNat * 16 + pos.x.toNat),
            p2f (pos.z.toNat * 16 * 16 + pos.y.toNat * 16 + pos.x.toNat)⟩ :=
  get_node_mkNodeData idf p1f p2f m pos _ (node_index_bounds pos hb)

/-- Witness for C2's amended layout at position `(1, 2, 3)`. -/
theorem get_node_wire_layout_witness :
    get_node ⟨mkNodeData (fun _ => 300) (fun _ => 4) (fun _ => 5),
        fun _ => none⟩ ⟨1, 2, 3⟩ = some ⟨300, 4, 5⟩ :=
  get_node_wire_layout (fun _ => 300) (fun _ => 4) (fun _ => 5)
    (fun _ => none) ⟨1, 2, 3⟩ (by decide)

/-- C1: for every hand-built valid payload — version byte ≥ 29, a
decompressed body consisting of the flags byte, lighting-complete `u16`,
timestamp `u32`, mapping-version byte, a well-formed mapping table
(distinct ids, in-range ids and lengths, valid-UTF-8 names), the two width
bytes and exactly `VOLUME*4 = 16384` node bytes — `Block::parse_data`
succeeds, `get_node` returns exactly the id/param1/param2 encoded at every
in-range position, and `get_name_by_id` returns exactly the name encoded
for each id of the table. -/
theorem parse_data_valid_payload_roundtrip
    (decompress : Bytes → Option Bytes) (v : Nat) (payload : Bytes)
    (flags lighting timestamp mapver cw pw : Nat)
    (es : List (Nat × Bytes)) (idf p1f p2f : Nat → Nat)
    (hv : 29 ≤ v) (_hv2 : v < 256)
    (_hflags : flags < 256) (_hlight : lighting < 65536)
    (_hts : timestamp < 2 ^ 32) (_hmv : mapver < 256)
    (_hcw : cw < 256) (_hpw : pw < 256)
    (_hcount : es.length < 65536)
    (_hids : ∀ e ∈ es, e.1 < 65536)
    (_hlens : ∀ e ∈ es, e.2.length < 65536 ∧ ∀ b ∈ e.2, b < 256)
    (hval : ∀ e ∈ es, validUtf8 e.2)
    (hnodup : (es.map Prod.fst).Nodup)
    (_hid : ∀ i, idf i < 65536) (_hp1 : ∀ i, p1f i < 256)
    (_hp2 : ∀ i, p2f i < 256)
    (hdec : decompress payload =
      some (encodeBody flags lighting timestamp mapver es cw pw
        (mkNodeData idf p1f p2f))) :
    parse_data decompress (v :: payload) =
      .ok ⟨mkNodeData idf p1f p2f, insertAll es⟩ ∧
    (∀ pos : IVec3,
      0 ≤ pos.x ∧ pos.x < 16 ∧ 0 ≤ pos.y ∧ pos.y < 16 ∧
        0 ≤ pos.z ∧ pos.z < 16 →
      get_node ⟨mkNodeData idf p1f p2f, insertAll es⟩ pos =
        some ⟨idf (pos.z.toNat * 16 * 16 + pos.y.toNat * 16 + pos.x.toNat),
              p1f (pos.z.toNat * 16 * 16 + pos.y.toNat * 16 + pos.x.toNat),
              p2f (pos.z.toNat * 16 * 16 + pos.y.toNat * 16 + pos.x.toNat)⟩) ∧
    (∀ e ∈ es, get_name_by_id ⟨mkNodeData idf p1f p2f, insertAll es⟩ e.1 =
      some e.2) := by
  refine ⟨?_, ?_, ?_⟩
  · unfold parse_data
    simp only [read_u8, hdec]
    rw [if_neg (by omega)]
    exact parse_body_encode flags lighting timestamp mapver cw pw es _ hval
      (mkNodeData_length idf p1f p2f)
  · intro pos hb
    exact get_node_mkNodeData idf p1f p2f (insertAll es) pos _
      (node_index_bounds pos hb)
  · intro e he
    exact insertAll_mem es hnodup e he

/-- Witness for C1: a one-entry table `3 ↦ "a"` and constant node data. -/
theorem parse_data_valid_payload_roundtrip_witness :
    parse_data (fun _ => some (encodeBody 0 0 0 0 [(3, [97])] 2 2
        (mkNodeData (fun _ => 5) (fun _ => 6) (fun _ => 7)))) [29] =
      .ok ⟨mkNodeData (fun _ => 5) (fun _ => 6) (fun _ => 7),
           insertAll [(3, [97])]⟩ ∧
    get_node ⟨mkNodeData (fun _ => 5) (fun _ => 6) (fun _ => 7),
        insertAll [(3, [97])]⟩ ⟨1, 2, 3⟩ = some ⟨5, 6, 7⟩ ∧
    get_name_by_id ⟨mkNodeData (fun _ => 5) (fun _ => 6) (fun _ => 7),
        insertAll [(3, [97])]⟩ 3 = some [97] := by
  have h := parse_data_valid_payload_roundtrip
    (fun _ => some (encodeBody 0 0 0 0 [(3, [97])] 2 2
      (mkNodeData (fun _ => 5) (fun _ => 6) (fun _ => 7))))
    29 [] 0 0 0 0 2 2 [(3, [97])]
    (fun _ => 5) (fun _ => 6) (fun _ => 7)
    (by decide) (by decide) (by decide) (by decide) (by decide) (by decide)
    (by decide) (by decide) (by decide) (by decide) (by decide) (by decide)
    (by decide) (fun _ => by norm_num) (fun _ => by norm_num)
    (fun _ => by norm_num) rfl
  exact ⟨h.1, h.2.1 ⟨1, 2, 3⟩ (by decide), h.2.2 (3, [97]) (by decide)⟩

/-- C4: for every payload whose decompressed body is a strict prefix of a
valid body — truncated at any point before the end of the 16384 node
bytes, including inside the two width bytes (whose read errors the code
ignores) or with only the final node byte missing — `Block::parse_data`
fails with an `Io` error and never returns a (partial) `Block`. -/
theorem parse_data_truncated_io
    (decompress : Bytes → Option Bytes) (v : Nat) (payload : Bytes)
    (flags lighting timestamp mapver cw pw : Nat)
    (es : List (Nat × Bytes)) (nd : Bytes) (k : Nat)
    (hv : 29 ≤ v) (hval : ∀ e ∈ es, validUtf8 e.2)
    (hnd : nd.length = VOLUME * 4)
    (hk : k < (encodeBody flags lighting timestamp mapver es cw pw nd).length)
    (hdec : decompress payload =
      some ((encodeBody flags lighting timestamp mapver es cw pw nd).take k)) :
    parse_data decompress (v :: payload) = .error .Io := by
  unfold parse_data
  simp only [read_u8, hdec]
  rw [if_neg (by omega)]
  exact parse_body_trunc flags lighting timestamp mapver cw pw es nd k
    hval hnd hk

/-- Witness for C4: the body truncated one byte short of its full
16396-byte length (the final node byte missing). -/
theorem parse_data_truncated_io_witness :
    (29 : Nat) ≤ 29 ∧
    (List.replicate (VOLUME * 4) 0).length = VOLUME * 4 ∧
    16395 <
      (encodeBody 0 0 0 0 [] 2 2 (List.replicate (VOLUME * 4) 0)).length ∧
    parse_data (fun _ => some ((encodeBody 0 0 0 0 [] 2 2
        (List.replicate (VOLUME * 4) 0)).take 16395)) [29] = .error .Io := by
  have hk : 16395 <
      (encodeBody 0 0 0 0 [] 2 2 (List.replicate (VOLUME * 4) 0)).length := by
    rw [encodeBody_length, encodeEntries_nil, List.length_replicate]
    decide
  exact ⟨by decide, List.length_replicate _ _, hk,
    parse_data_truncated_io
      (fun _ => some ((encodeBody 0 0 0 0 [] 2 2
        (List.replicate (VOLUME * 4) 0)).take 16395))
      29 [] 0 0 0 0 2 2 [] (List.replicate (VOLUME * 4) 0) 16395
      (by decide) (by simp) (List.length_replicate _ _) hk rfl⟩

theorem parse_body_invalid (flags lighting timestamp mapver cw pw j : Nat)
    (pre post : List (Nat × Bytes)) (bad nd : Bytes)
    (hpre : ∀ e ∈ pre, validUtf8 e.2) (hbad : validUtf8 bad = false) :
    parse_body (encodeBody flags lighting timestamp mapver
      (pre ++ (j, bad) :: post) cw pw nd) = .error .InvalidUtf8 := by
  have hshape : encodeBody flags lighting timestamp mapver
      (pre ++ (j, bad) :: post) cw pw nd =
      flags :: (lighting / 256) :: (lighting % 256) ::
      (timestamp / 2 ^ 24 % 256) :: (timestamp / 2 ^ 16 % 256) ::
      (timestamp / 2 ^ 8 % 256) :: (timestamp % 256) :: mapver ::
      ((pre ++ (j, bad) :: post).length / 256) ::
      ((pre ++ (j, bad) :: post).length % 256) ::
      (encodeEntries pre ++ (encodeEntry (j, bad) ++
        (encodeEntries post ++ (cw :: pw :: nd)))) := by
    simp [encodeBody, be16, be32, encodeEntries_append, encodeEntries_cons]
  rw [hshape]
  have hcount : (pre ++ (j, bad) :: post).length / 256 * 256 +
      (pre ++ (j, bad) :: post).length % 256 =
      pre.length + (post.length + 1) := by
    rw [List.length_append, List.length_cons]
    omega
  simp only [parse_body, read_u8, read_u16, read_u32, hcount]
  rw [read_mappings_invalid pre post.length j bad _ _ hpre hbad]

/-- C7: a mapping-table entry whose name bytes are not valid UTF-8 (with
every earlier entry valid) makes `Block::parse_data` fail with
`InvalidUtf8`; and two entries carrying the same local id do not cause an
error — the later entry silently overwrites the earlier one in the
block-local table. -/
theorem parse_data_utf8_and_duplicate_ids :
    (∀ (decompress : Bytes → Option Bytes) (v : Nat) (payload : Bytes)
        (flags lighting timestamp mapver cw pw j : Nat)
        (pre post : List (Nat × Bytes)) (bad nd : Bytes),
      29 ≤ v → (∀ e ∈ pre, validUtf8 e.2) → validUtf8 bad = false →
      decompress payload = some (encodeBody flags lighting timestamp mapver
        (pre ++ (j, bad) :: post) cw pw nd) →
      parse_data decompress (v :: payload) = .error .InvalidUtf8) ∧
    (∀ (decompress : Bytes → Option Bytes) (v : Nat) (payload : Bytes)
        (flags lighting timestamp mapver cw pw j : Nat)
        (es : List (Nat × Bytes)) (n1 n2 nd : Bytes),
      29 ≤ v → (∀ e ∈ es, validUtf8 e.2) → validUtf8 n1 → validUtf8 n2 →
      nd.length = VOLUME * 4 →
      decompress payload = some (encodeBody flags lighting timestamp mapver
        (es ++ [(j, n1), (j, n2)]) cw pw nd) →
      parse_data decompress (v :: payload) =
        .ok ⟨nd, insertAll (es ++ [(j, n1), (j, n2)])⟩ ∧
      get_name_by_id ⟨nd, insertAll (es ++ [(j, n1), (j, n2)])⟩ j =
        some n2) := by
  constructor
  · intro dec v payload flags lighting timestamp mapver cw pw j pre post bad
      nd hv hpre hbad hdec
    unfold parse_data
    simp only [read_u8, hdec]
    rw [if_neg (by omega)]
    exact parse_body_invalid flags lighting timestamp mapver cw pw j pre
      post bad nd hpre hbad
  · intro dec v payload flags lighting timestamp mapver cw pw j es n1 n2 nd
      hv hes h1 h2 hnd hdec
    have hval' : ∀ e ∈ es ++ [(j, n1), (j, n2)], validUtf8 e.2 := by
      intro e he
      rcases List.mem_append.mp he with h | h
      · exact hes e h
      · simp only [List.mem_cons, List.mem_singleton] at h
        rcases h with rfl | h
        · exact h1
        · rcases h with rfl | h
          · exact h2
          · simp at h
    constructor
    · unfold parse_data
      simp only [read_u8, hdec]
      rw [if_neg (by omega)]
      exact parse_body_encode flags lighting timestamp mapver cw pw _ nd
        hval' hnd
    · exact insertAll_append_dup es j n1 n2

/-- Witness for C7: a single invalid-UTF-8 name `[0xFF]` fails; the table
`5 ↦ "a", 5 ↦ "b"` decodes with `get_name_by_id 5 = "b"`. -/
theorem parse_data_utf8_and_duplicate_ids_witness :
    validUtf8 [255] = false ∧
    parse_data (fun _ => some (encodeBody 0 0 0 0 [(1, [255])] 2 2 []))
      [29] = .error .InvalidUtf8 ∧
    parse_data (fun _ => some (encodeBody 0 0 0 0 [(5, [97]), (5, [98])] 2 2
        (List.replicate (VOLUME * 4) 0))) [29] =
      .ok ⟨List.replicate (VOLUME * 4) 0, insertAll [(5, [97]), (5, [98])]⟩ ∧
    get_name_by_id ⟨List.replicate (VOLUME * 4) 0,
        insertAll [(5, [97]), (5, [98])]⟩ 5 = some [98] := by
  have hpart2 := parse_data_utf8_and_duplicate_ids.2
    (fun _ => some (encodeBody 0 0 0 0 [(5, [97]), (5, [98])] 2 2
      (List.replicate (VOLUME * 4) 0)))
    29 [] 0 0 0 0 2 2 5 [] [97] [98] (List.replicate (VOLUME * 4) 0)
    (by decide) (by simp) (by decide) (by decide)
    (List.length_replicate _ _) rfl
  exact ⟨by decide,
    parse_data_utf8_and_duplicate_ids.1
      (fun _ => some (encodeBody 0 0 0 0 [(1, [255])] 2 2 []))
      29 [] 0 0 0 0 2 2 1 [] [] [255] []
      (by decide) (by simp) (by decide) rfl,
    hpart2.1, hpart2.2⟩
